import Mathlib

/-!
Verification of the incident filtering and classification engine of the
Palo Alto police-log visualizer (`src/app/page.tsx`).

The engine is a pure-data pipeline over an in-memory list of incident
records: a category deriver (`uniqueCategories`), a severity and color
classifier (`getCategorySeverityLevel`, `assignColorByCategory`), a date
parser (`parseMDYToUTCDate`) and a filter (`filteredIncidents`).  The
definitions below are a shallow embedding of that TypeScript code:

* JavaScript strings are `String`, split and scanned as `List Char`;
  `String.prototype.split` with a one-character separator is
  `splitOnChar`, `parseInt(s, 10)` is `jsParseInt`,
  `String.prototype.includes` is `includesKw`,
  `String.prototype.toLowerCase` is `toLowerStr` (the labels involved are
  ASCII, where `Char.toLower` agrees with the JS definition).
* `Date` values at midnight are modelled by their calendar components
  (`CivilDate`) and, where the code compares `getTime()` timestamps, by
  their day number relative to the Unix epoch (`daysFromCivil`, the
  standard civil-from-days conversion of the proleptic Gregorian
  calendar, which is what ECMAScript `Date.UTC` implements).  The
  runtime timezone is taken to be UTC, so local midnight and UTC
  midnight coincide; no claim depends on a non-UTC offset.
* `new Date(s)` applied to an arbitrary human-formatted report-date
  string is implementation-defined in ECMAScript, so it is passed into
  the engine as an explicit parameter `pHuman : String → Option Int`
  (result of a successful parse followed by `setHours(0,0,0,0)`, as an
  epoch day count; `none` is an invalid date).
-/

/-- Decimal digit test on a character (`'0'..'9'`, code points 48-57). -/
def isDigitChar (c : Char) : Bool :=
  48 ≤ c.toNat && c.toNat ≤ 57

/-- Numeric value of a decimal digit character. -/
def digitVal (c : Char) : Nat :=
  c.toNat - 48

/-- The ECMAScript `StrWhiteSpaceChar`s that `parseInt` skips, restricted
to the ASCII range (the inputs fed to `parseInt` in this program are
ASCII). -/
def isJsWhitespace (c : Char) : Bool :=
  c = ' ' || c = '\t' || c = '\n' || c = '\r' || c.toNat = 11 || c.toNat = 12

/-- Value of the longest leading run of decimal digits; `none` when there
is no leading digit (`parseInt` yields `NaN`). -/
def digitsVal (cs : List Char) : Option Nat :=
  let ds := cs.takeWhile isDigitChar
  if ds.isEmpty then none
  else some (ds.foldl (fun a c => a * 10 + (c.toNat - 48)) 0)

/-- Model of JavaScript `parseInt(s, 10)`: skip leading whitespace, read
an optional sign and then the longest run of decimal digits, ignoring any
trailing garbage; `none` models `NaN`. -/
def jsParseInt (cs : List Char) : Option Int :=
  match cs.dropWhile isJsWhitespace with
  | [] => none
  | c :: rest =>
    if c = '-' then (digitsVal rest).map (fun n => -(n : Int))
    else if c = '+' then (digitsVal rest).map (fun n => (n : Int))
    else (digitsVal (c :: rest)).map (fun n => (n : Int))

/-- Model of `String.prototype.split` with a one-character separator:
`splitOnChar sep l` always returns a non-empty list of (possibly empty)
chunks. -/
def splitOnChar (sep : Char) : List Char → List (List Char)
  | [] => [[]]
  | c :: cs =>
    let r := splitOnChar sep cs
    if c = sep then [] :: r
    else
      match r with
      | [] => [[c]]
      | h :: t => (c :: h) :: t

/-- `startsWithList l p` is true when `p` is a prefix of `l`. -/
def startsWithList : List Char → List Char → Bool
  | _, [] => true
  | [], _ :: _ => false
  | c :: cs, p :: ps => c = p && startsWithList cs ps

/-- `containsSub hay kw` is true when `kw` occurs contiguously in `hay`
(model of `String.prototype.includes`). -/
def containsSub (hay kw : List Char) : Bool :=
  match hay with
  | [] => kw.isEmpty
  | _ :: t => startsWithList hay kw || containsSub t kw

/-- Model of `String.prototype.toLowerCase` on the ASCII strings this
program feeds it. -/
def toLowerStr (s : String) : String :=
  String.mk (s.data.map Char.toLower)

/-- `category.toLowerCase().includes(kw)` as used by the classifiers. -/
def includesKw (s kw : String) : Bool :=
  containsSub s.data kw.data

/-- Gregorian leap-year rule (what ECMAScript `Date` implements). -/
def isLeapYear (y : Nat) : Bool :=
  y % 4 = 0 && (y % 100 ≠ 0 || y % 400 = 0)

/-- Number of days of month `m` (1-based) of year `y` in the proleptic
Gregorian calendar. -/
def daysInMonth (y m : Nat) : Nat :=
  if m = 2 then (if isLeapYear y then 29 else 28)
  else if m = 4 ∨ m = 6 ∨ m = 9 ∨ m = 11 then 30
  else 31

/-- A calendar date; stands for the ECMAScript `Date` at midnight of that
day (UTC midnight for the incident-date path, local = UTC midnight for
the report-date path). -/
structure CivilDate where
  year : Nat
  month : Nat
  day : Nat
deriving DecidableEq

/-- Day number of (`y`, `m`, `d`) relative to 1970-01-01 in the proleptic
Gregorian calendar (`m` is 1-based; `d` may lie outside `1..daysInMonth`,
in which case the date normalizes by rolling over, exactly as the
ECMAScript `MakeDay` operation does, since the formula is linear in `d`).
This is Howard Hinnant's `days_from_civil`, with the era computed by a
floor division. -/
def daysFromCivil (y : Int) (m : Nat) (d : Int) : Int :=
  let yAdj : Int := if m ≤ 2 then y - 1 else y
  let era : Int := Int.fdiv yAdj 400
  let yoe : Int := yAdj - era * 400
  let mp : Nat := if 3 ≤ m then m - 3 else m + 9
  let doy : Int := ((153 * mp + 2) / 5 : Nat) + (d - 1)
  let doe : Int := yoe * 365 + Int.fdiv yoe 4 - Int.fdiv yoe 100 + doy
  era * 146097 + doe - 719468

/-- Epoch-day number of a calendar date (its `getTime()` divided by
86 400 000). -/
def CivilDate.epochDays (c : CivilDate) : Int :=
  daysFromCivil (c.year : Int) c.month (c.day : Int)

/-- Model of the ECMAScript `new Date(year, monthIndex, day)` constructor
at midnight, as an epoch-day count: two-digit years map to `1900 + year`
(`MakeFullYear`), the day of month normalizes by rolling over, and a time
value outside the representable range of ±8.64e15 ms (±1e8 days) is an
invalid date (`none`). -/
def jsNewDateYMD (year : Int) (monthIndex : Nat) (day : Int) : Option Int :=
  let y : Int := if 0 ≤ year ∧ year ≤ 99 then year + 1900 else year
  let t : Int := daysFromCivil y (monthIndex + 1) day
  if -100000000 ≤ t ∧ t ≤ 100000000 then some t else none

/-- Embedding of `parseMDYToUTCDate` (page.tsx lines 341-374): split on
`'/'`, require exactly three `parseInt`-numeric components, range-check
them (month 1-12, day 1-31, year 1900-3000), and reject any day that the
`Date.UTC`-then-read-back double check would catch, i.e. any day that
overflows its month (with month in 1-12 and day in 1-31, the constructed
date reads back unchanged exactly when `day ≤ daysInMonth`).  `none`
models the `null` return. -/
def parseMDYToUTCDate (dateString : String) : Option CivilDate :=
  if dateString.data = [] then none
  else
    match splitOnChar '/' dateString.data with
    | [p0, p1, p2] =>
      match jsParseInt p0, jsParseInt p1, jsParseInt p2 with
      | some month, some day, some year =>
        if month < 1 ∨ month > 12 ∨ day < 1 ∨ day > 31 ∨ year < 1900 ∨ year > 3000 then
          none
        else if day.toNat ≤ daysInMonth year.toNat month.toNat then
          some ⟨year.toNat, month.toNat, day.toNat⟩
        else
          none
      | _, _, _ => none
    | _ => none

/-- Model of parsing a filter-control date bound: `new Date(s +
"T00:00:00Z")` on the incident-date path, and `new Date(s)` followed by
`setHours(0,0,0,0)` on the report-date path (under a UTC runtime
timezone both give midnight of the same calendar day).  The date inputs
of the filter panel produce either `""` or a valid `YYYY-MM-DD` string;
on that grammar the ECMAScript ISO parser accepts exactly the values
below and yields an invalid date (`none`, i.e. `NaN`) otherwise. -/
def parseInputDateUTC (s : String) : Option CivilDate :=
  match s.data with
  | [y1, y2, y3, y4, h1, m1, m2, h2, d1, d2] =>
    if h1 = '-' ∧ h2 = '-' ∧ isDigitChar y1 = true ∧ isDigitChar y2 = true ∧
        isDigitChar y3 = true ∧ isDigitChar y4 = true ∧ isDigitChar m1 = true ∧
        isDigitChar m2 = true ∧ isDigitChar d1 = true ∧ isDigitChar d2 = true then
      let y := digitVal y1 * 1000 + digitVal y2 * 100 + digitVal y3 * 10 + digitVal y4
      let m := digitVal m1 * 10 + digitVal m2
      let d := digitVal d1 * 10 + digitVal d2
      if 1 ≤ m ∧ m ≤ 12 ∧ 1 ≤ d ∧ d ≤ daysInMonth y m then some ⟨y, m, d⟩ else none
    else none
  | _ => none

example : parseMDYToUTCDate "1/15/2025" = some ⟨2025, 1, 15⟩ := by decide
example : parseMDYToUTCDate "2/30/2024" = none := by decide
example : parseMDYToUTCDate "2/29/2024" = some ⟨2024, 2, 29⟩ := by decide
example : parseMDYToUTCDate "" = none := by decide
example : parseInputDateUTC "2025-02-01" = some ⟨2025, 2, 1⟩ := by decide
example : daysFromCivil 1970 1 1 = 0 := by decide
example : daysFromCivil 2025 4 99 = daysFromCivil 2025 7 8 := by decide

/-- The incident record (page.tsx interface `Incident`).  Numeric fields
are `Float` as in JavaScript; none of the verified operations reads
them. -/
structure Incident where
  case_number : String
  date : String
  time : Float
  offense_type : String
  offense_category : String
  location : String
  latitude : Float
  longitude : Float
  formatted_address : String
  google_maps_uri : String
  place_types : String
  location_interpretation : String
  police_record_date_str : Option String
  police_record_date : Option String

/-- The filter predicate state owned by the interaction layer: the four
raw date-bound strings (`""` means unset, matching JS falsiness of the
empty string) and the selected-category list. -/
structure FilterState where
  incidentDateStart : String
  incidentDateEnd : String
  reportDateStart : String
  reportDateEnd : String
  selectedCategories : List String

/-- Convenience constructor for concrete incidents: only the fields the
engine reads are taken as arguments. -/
def mkIncident (date cat : String) (slug recDate : Option String) : Incident :=
  { case_number := "", date := date, time := 0, offense_type := "",
    offense_category := cat, location := "", latitude := 0, longitude := 0,
    formatted_address := "", google_maps_uri := "", place_types := "",
    location_interpretation := "", police_record_date_str := slug,
    police_record_date := recDate }

/-- `severityOrder` (page.tsx line 272). -/
def severityOrder : List String :=
  ["High", "Medium", "Low", "Informational/Other", "Default"]

/-- Embedding of `getCategorySeverityLevel` (page.tsx lines 275-291). -/
def getCategorySeverityLevel (category : String) : String :=
  let lc := toLowerStr category
  if includesKw lc "violent" || includesKw lc "robbery" || includesKw lc "burglary" ||
      includesKw lc "weapon" || includesKw lc "assault" then "High"
  else if includesKw lc "theft" || includesKw lc "fraud" || includesKw lc "vehicle" ||
      includesKw lc "stolen" || includesKw lc "dui" || includesKw lc "narcotic" then "Medium"
  else if includesKw lc "property" || includesKw lc "vandalism" || includesKw lc "traffic" ||
      includesKw lc "disturbance" || includesKw lc "trespass" ||
      includesKw lc "public order" then "Low"
  else if includesKw lc "admin" || includesKw lc "other" || includesKw lc "warrant" ||
      includesKw lc "arrest" || includesKw lc "lost" || includesKw lc "found" ||
      includesKw lc "suspicious" || includesKw lc "info" || includesKw lc "misc" ||
      includesKw lc "welfare" then "Informational/Other"
  else "Default"

/-- Embedding of `assignColorByCategory` (page.tsx lines 295-320). -/
def assignColorByCategory (category : String) : String :=
  let lc := toLowerStr category
  if includesKw lc "violent" || includesKw lc "robbery" || includesKw lc "burglary" ||
      includesKw lc "weapon" || includesKw lc "assault" then "#B91C1C"
  else if includesKw lc "theft" || includesKw lc "fraud" || includesKw lc "vehicle" ||
      includesKw lc "stolen" || includesKw lc "dui" || includesKw lc "narcotic" then "#F59E0B"
  else if includesKw lc "property" || includesKw lc "vandalism" ||
      includesKw lc "disturbance" || includesKw lc "trespass" ||
      includesKw lc "public order" then "#EAB308"
  else if includesKw lc "traffic" then "#2563EB"
  else if includesKw lc "admin" || includesKw lc "other" || includesKw lc "warrant" ||
      includesKw lc "arrest" || includesKw lc "lost" || includesKw lc "found" ||
      includesKw lc "suspicious" || includesKw lc "info" || includesKw lc "misc" ||
      includesKw lc "welfare" then "#6B7280"
  else "#9CA3AF"

/-- Model of `Array.prototype.indexOf` on a string array, returning `-1`
when absent. -/
def jsIndexOfAux (x : String) : List String → Int → Int
  | [], _ => -1
  | y :: ys, i => if y = x then i else jsIndexOfAux x ys (i + 1)

def jsIndexOf (l : List String) (x : String) : Int :=
  jsIndexOfAux x l 0

/-- Code-point lexicographic `≤` on character lists; models the order
that `localeCompare` induces on the ASCII category labels. -/
def lexLeChars : List Char → List Char → Bool
  | [], _ => true
  | _ :: _, [] => false
  | a :: as, b :: bs =>
    if a.toNat < b.toNat then true
    else if b.toNat < a.toNat then false
    else lexLeChars as bs

theorem lexLeChars_total : ∀ as bs, lexLeChars as bs = true ∨ lexLeChars bs as = true := by
  intro as
  induction as with
  | nil => intro bs; exact Or.inl rfl
  | cons a as ih =>
    intro bs
    cases bs with
    | nil => exact Or.inr rfl
    | cons b bs =>
      simp only [lexLeChars]
      rcases Nat.lt_trichotomy a.toNat b.toNat with h | h | h
      · left; simp [h]
      · have h1 : ¬ a.toNat < b.toNat := by omega
        have h2 : ¬ b.toNat < a.toNat := by omega
        rcases ih bs with hc | hc
        · left; simp [h1, h2, hc]
        · right; simp [h1, h2, hc]
      · right; simp [h]

theorem lexLeChars_trans : ∀ as bs cs, lexLeChars as bs = true →
    lexLeChars bs cs = true → lexLeChars as cs = true := by
  intro as
  induction as with
  | nil => intro bs cs _ _; rfl
  | cons a as ih =>
    intro bs cs hab hbc
    cases bs with
    | nil => simp [lexLeChars] at hab
    | cons b bs =>
      cases cs with
      | nil => simp [lexLeChars] at hbc
      | cons c cs =>
        simp only [lexLeChars] at hab hbc ⊢
        by_cases h1 : a.toNat < b.toNat <;> by_cases h2 : b.toNat < c.toNat <;>
          simp only [h1, h2, if_pos, if_neg, if_true, if_false] at hab hbc ⊢
        · have : a.toNat < c.toNat := by omega
          simp [this]
        · by_cases h3 : c.toNat < b.toNat
          · simp [h3] at hbc
          · have : a.toNat < c.toNat := by omega
            simp [this]
        · by_cases h3 : b.toNat < a.toNat
          · simp [h3] at hab
          · have : a.toNat < c.toNat := by omega
            simp [this]
        · by_cases h3 : b.toNat < a.toNat
          · simp [h3] at hab
          · by_cases h4 : c.toNat < b.toNat
            · simp [h4] at hbc
            · have hac : ¬ a.toNat < c.toNat := by omega
              have hca : ¬ c.toNat < a.toNat := by omega
              simp only [h3, h4, if_neg, if_false] at hab hbc
              simp [hac, hca, ih bs cs hab hbc]

/-- The order realized by the `uniqueCategories` sort comparator
(page.tsx lines 385-397): ascending `severityOrder` index of the
category's severity level, ties broken by the string order
(`localeCompare` is modelled by the code-point lexicographic order
`lexLeChars`; the category labels are plain ASCII). -/
def catLE (a b : String) : Prop :=
  jsIndexOf severityOrder (getCategorySeverityLevel a) <
      jsIndexOf severityOrder (getCategorySeverityLevel b) ∨
    (jsIndexOf severityOrder (getCategorySeverityLevel a) =
        jsIndexOf severityOrder (getCategorySeverityLevel b) ∧
      lexLeChars a.data b.data = true)

instance : DecidableRel catLE := fun _ _ =>
  inferInstanceAs (Decidable (_ < _ ∨ (_ = _ ∧ _ = true)))

instance : IsTotal String catLE where
  total a b := by
    rcases Int.lt_trichotomy (jsIndexOf severityOrder (getCategorySeverityLevel a))
        (jsIndexOf severityOrder (getCategorySeverityLevel b)) with h | h | h
    · exact Or.inl (Or.inl h)
    · rcases lexLeChars_total a.data b.data with hab | hab
      · exact Or.inl (Or.inr ⟨h, hab⟩)
      · exact Or.inr (Or.inr ⟨h.symm, hab⟩)
    · exact Or.inr (Or.inl h)

instance : IsTrans String catLE where
  trans a b c hab hbc := by
    rcases hab with h1 | ⟨h1, h1s⟩ <;> rcases hbc with h2 | ⟨h2, h2s⟩
    · exact Or.inl (h1.trans h2)
    · exact Or.inl (h2 ▸ h1)
    · exact Or.inl (h1 ▸ h2)
    · exact Or.inr ⟨h1.trans h2, lexLeChars_trans _ _ _ h1s h2s⟩

/-- One step of building the JS `Set` of categories: add the label if it
is truthy (non-empty) and not yet present, keeping insertion order. -/
def addCategory (acc : List String) (c : String) : List String :=
  if c ≠ "" ∧ c ∉ acc then acc ++ [c] else acc

/-- Embedding of `uniqueCategories` (page.tsx lines 377-398): collect the
distinct truthy `offense_category` values in first-occurrence order
(`Set` plus `Array.from`), then sort with the severity comparator.  The
ECMAScript sort is a stable sort under a consistent comparator; on a
duplicate-free list its result is the unique `catLE`-sorted permutation,
which `List.insertionSort` computes. -/
def uniqueCategories (incidents : List Incident) : List String :=
  List.insertionSort catLE
    (incidents.foldl (fun acc inc => addCategory acc inc.offense_category) [])

/-- `incident.police_record_date` parse attempt (page.tsx lines 461-474):
the field must be present and truthy, and `new Date(field)` (modelled by
the explicit parameter `pHuman`, see the file header) must give a valid
date. -/
def humanResolve (pHuman : String → Option Int) (inc : Incident) : Option Int :=
  match inc.police_record_date with
  | none => none
  | some s => if s = "" then none else pHuman s

/-- `monthNames` (page.tsx line 483). -/
def monthNames : List String :=
  ["january", "february", "march", "april", "may", "june", "july", "august",
   "september", "october", "november", "december"]

/-- Report-date resolution (page.tsx lines 459-498): prefer
`police_record_date`; otherwise fall back to the slug
`police_record_date_str` split on `'-'` into exactly three parts with a
recognized month name and `parseInt`-numeric day and year.  The outer
`none` is `canParseReportDate = false`; `some rd` carries the resolved
date, where `rd = none` is an invalid date (`NaN` time value), which the
code still treats as parsed. -/
def resolveReportDate (pHuman : String → Option Int) (inc : Incident) :
    Option (Option Int) :=
  match humanResolve pHuman inc with
  | some t => some (some t)
  | none =>
    match inc.police_record_date_str with
    | none => none
    | some slug =>
      if slug = "" then none
      else
        match splitOnChar '-' slug.data with
        | [p0, p1, p2] =>
          let mi := jsIndexOf monthNames (toLowerStr (String.mk p0))
          if mi > -1 then
            match jsParseInt p1, jsParseInt p2 with
            | some day, some year => some (jsNewDateYMD year mi.toNat day)
            | _, _ => none
          else none
        | _ => none

/-- `a < b` on JS `Date`s via their time values, where either side may be
an invalid date (`none` = `NaN`, and every comparison against `NaN` is
false). -/
def jsLtOpt (a b : Option Int) : Bool :=
  match a, b with
  | some x, some y => decide (x < y)
  | _, _ => false

/-- Incident-date predicate group of the filter (page.tsx lines 412-456):
active when either bound string is truthy; an unparseable incident date
is excluded; an unparseable (`NaN`) bound excludes as well
(`isNaN` checks at lines 427 and 445); otherwise the incident is dropped
exactly when it falls strictly before the start or strictly after the
end. -/
def passesIncidentDate (st : FilterState) (inc : Incident) : Bool :=
  if st.incidentDateStart ≠ "" ∨ st.incidentDateEnd ≠ "" then
    match parseMDYToUTCDate inc.date with
    | none => false
    | some d =>
      (if st.incidentDateStart ≠ "" then
        match parseInputDateUTC st.incidentDateStart with
        | none => false
        | some sd => !decide (d.epochDays < sd.epochDays)
      else true) &&
      (if st.incidentDateEnd ≠ "" then
        match parseInputDateUTC st.incidentDateEnd with
        | none => false
        | some ed => !decide (ed.epochDays < d.epochDays)
      else true)
  else true

/-- Report-date predicate group of the filter (page.tsx lines 459-518):
active when either bound string is truthy; when the report date cannot be
resolved at all the incident is excluded; otherwise it is dropped exactly
when a `Date` comparison against a bound succeeds (note there is no
`isNaN` check on the bounds here — an unparseable bound makes both
comparisons false, so it excludes nothing). -/
def passesReportDate (pHuman : String → Option Int) (st : FilterState)
    (inc : Incident) : Bool :=
  if st.reportDateStart ≠ "" ∨ st.reportDateEnd ≠ "" then
    match resolveReportDate pHuman inc with
    | none => false
    | some rd =>
      (if st.reportDateStart ≠ "" then
        !(jsLtOpt rd (Option.map CivilDate.epochDays (parseInputDateUTC st.reportDateStart)))
      else true) &&
      (if st.reportDateEnd ≠ "" then
        !(jsLtOpt (Option.map CivilDate.epochDays (parseInputDateUTC st.reportDateEnd)) rd)
      else true)
  else true

/-- Category predicate group of the filter (page.tsx lines 521-523). -/
def passesCategory (st : FilterState) (inc : Incident) : Bool :=
  if st.selectedCategories.length > 0 ∧ inc.offense_category ∉ st.selectedCategories then
    false
  else true

/-- The whole per-incident predicate: the three groups in the order the
code evaluates them; the code's early `return false`s are the
short-circuit conjunction. -/
def incidentPasses (pHuman : String → Option Int) (st : FilterState)
    (inc : Incident) : Bool :=
  passesIncidentDate st inc && passesReportDate pHuman st inc && passesCategory st inc

/-- Embedding of the `filteredIncidents` computation (page.tsx lines
410-527): `allIncidents.filter(...)`. -/
def filteredIncidents (pHuman : String → Option Int) (st : FilterState)
    (incidents : List Incident) : List Incident :=
  incidents.filter (incidentPasses pHuman st)

/-- The filter with the category predicate group omitted entirely.
Modelled from the spec: the comparison point of the claim that an empty
category selection "yields the same result as omitting the category
predicate entirely". -/
def filteredIncidentsNoCategory (pHuman : String → Option Int) (st : FilterState)
    (incidents : List Incident) : List Incident :=
  incidents.filter (fun inc => passesIncidentDate st inc && passesReportDate pHuman st inc)

/-- A human-formatted report-date parser that never succeeds; used to
instantiate scenarios whose incidents carry no such field. -/
def pHnone : String → Option Int := fun _ => none

example : getCategorySeverityLevel "Violent Crime" = "High" := by decide
example : getCategorySeverityLevel "Traffic Violation" = "Low" := by decide
example : getCategorySeverityLevel "Lost Property" = "Low" := by decide
example : assignColorByCategory "Lost Property" = "#EAB308" := by decide
example :
    uniqueCategories
      [mkIncident "" "Violent Crime" none none,
       mkIncident "" "Traffic Violation" none none,
       mkIncident "" "Lost Property" none none] =
      ["Violent Crime", "Lost Property", "Traffic Violation"] := by decide
example :
    resolveReportDate pHnone (mkIncident "" "" (some "april-07-2025") none) =
      some (some (daysFromCivil 2025 4 7)) := by decide
example :
    resolveReportDate pHnone (mkIncident "" "" (some "april-99-2025") none) =
      some (some (daysFromCivil 2025 7 8)) := by decide

theorem mem_addCategory {acc : List String} {c x : String} :
    x ∈ addCategory acc c ↔ x ∈ acc ∨ (c ≠ "" ∧ x = c) := by
  unfold addCategory
  split_ifs with h
  · simp only [List.mem_append, List.mem_singleton]
    constructor
    · rintro (hx | hx)
      · exact Or.inl hx
      · exact Or.inr ⟨h.1, hx⟩
    · rintro (hx | ⟨-, hx⟩)
      · exact Or.inl hx
      · exact Or.inr hx
  · constructor
    · exact Or.inl
    · rintro (hx | ⟨hc, hx⟩)
      · exact hx
      · rcases not_and_or.mp h with h' | h'
        · exact absurd hc h'
        · rw [hx]; exact not_not.mp h'

theorem nodup_addCategory {acc : List String} {c : String} (h : acc.Nodup) :
    (addCategory acc c).Nodup := by
  unfold addCategory
  split_ifs with hc
  · rw [List.nodup_append]
    refine ⟨h, List.nodup_singleton c, ?_⟩
    intro a ha hac
    rw [List.mem_singleton] at hac
    exact hc.2 (hac ▸ ha)
  · exact h

theorem mem_foldl_addCategory : ∀ (l : List Incident) (acc : List String) (x : String),
    x ∈ l.foldl (fun acc inc => addCategory acc inc.offense_category) acc ↔
      x ∈ acc ∨ ∃ inc ∈ l, x = inc.offense_category ∧ inc.offense_category ≠ "" := by
  intro l
  induction l with
  | nil => intro acc x; simp
  | cons i l ih =>
    intro acc x
    rw [List.foldl_cons, ih, mem_addCategory]
    constructor
    · rintro ((hx | ⟨hne, hx⟩) | ⟨inc, hinc, hx, hne⟩)
      · exact Or.inl hx
      · exact Or.inr ⟨i, List.mem_cons_self i l, hx, hne⟩
      · exact Or.inr ⟨inc, List.mem_cons_of_mem i hinc, hx, hne⟩
    · rintro (hx | ⟨inc, hinc, hx, hne⟩)
      · exact Or.inl (Or.inl hx)
      · rcases List.mem_cons.mp hinc with rfl | hinc
        · exact Or.inl (Or.inr ⟨hne, hx⟩)
        · exact Or.inr ⟨inc, hinc, hx, hne⟩

theorem nodup_foldl_addCategory : ∀ (l : List Incident) (acc : List String), acc.Nodup →
    (l.foldl (fun acc inc => addCategory acc inc.offense_category) acc).Nodup := by
  intro l
  induction l with
  | nil => intro acc h; exact h
  | cons i l ih => intro acc h; exact ih _ (nodup_addCategory h)

theorem mem_uniqueCategories {incs : List Incident} {x : String} :
    x ∈ uniqueCategories incs ↔
      ∃ inc ∈ incs, x = inc.offense_category ∧ inc.offense_category ≠ "" := by
  unfold uniqueCategories
  rw [List.mem_insertionSort, mem_foldl_addCategory]
  simp

theorem nodup_uniqueCategories {incs : List Incident} : (uniqueCategories incs).Nodup :=
  ((List.perm_insertionSort catLE _).nodup_iff).mpr
    (nodup_foldl_addCategory incs [] List.nodup_nil)

theorem empty_not_mem_uniqueCategories {incs : List Incident} :
    "" ∉ uniqueCategories incs := by
  intro h
  rcases mem_uniqueCategories.mp h with ⟨inc, -, hx, hne⟩
  exact hne hx.symm

theorem sorted_uniqueCategories {incs : List Incident} :
    List.Sorted catLE (uniqueCategories incs) :=
  List.sorted_insertionSort catLE _

/-- C3: for every incident collection (including the empty one), the
category deriver outputs the distinct non-empty category labels observed
across the incidents — no duplicates, no empty label — sorted primarily
by severity rank (the `severityOrder` index, High < Medium < Low <
Informational/Other < Default) and secondarily alphabetically within a
tier (the relation `catLE`); the empty collection yields the empty
sequence. -/
theorem uniqueCategories_spec :
    (∀ incs : List Incident,
      (uniqueCategories incs).Nodup ∧
      "" ∉ uniqueCategories incs ∧
      List.Sorted catLE (uniqueCategories incs) ∧
      (∀ c, c ∈ uniqueCategories incs ↔
        c ≠ "" ∧ ∃ inc ∈ incs, inc.offense_category = c)) ∧
    uniqueCategories [] = [] := by
  refine ⟨fun incs => ⟨nodup_uniqueCategories, empty_not_mem_uniqueCategories,
    sorted_uniqueCategories, fun c => ?_⟩, rfl⟩
  rw [mem_uniqueCategories]
  constructor
  · rintro ⟨inc, hinc, rfl, hne⟩
    exact ⟨hne, inc, hinc, rfl⟩
  · rintro ⟨hne, inc, hinc, hc⟩
    exact ⟨inc, hinc, hc.symm, hc ▸ hne⟩

/-- C4: the severity classifier and the color classifier select the same
keyword tier under the fixed priority order, so severity rank and legend
color never disagree: High pairs with the dark-red color, Medium with
orange, Low with one of the two low-tier colors (property yellow or
traffic blue), Informational/Other with gray, Default with the lighter
gray.  Both classifiers are plain total functions of the label, hence
deterministic. -/
theorem severity_color_agree : ∀ c : String,
    (getCategorySeverityLevel c = "High" ↔ assignColorByCategory c = "#B91C1C") ∧
    (getCategorySeverityLevel c = "Medium" ↔ assignColorByCategory c = "#F59E0B") ∧
    (getCategorySeverityLevel c = "Low" ↔
      (assignColorByCategory c = "#EAB308" ∨ assignColorByCategory c = "#2563EB")) ∧
    (getCategorySeverityLevel c = "Informational/Other" ↔
      assignColorByCategory c = "#6B7280") ∧
    (getCategorySeverityLevel c = "Default" ↔ assignColorByCategory c = "#9CA3AF") := by
  intro c
  simp only [getCategorySeverityLevel, assignColorByCategory]
  cases h1 : (includesKw (toLowerStr c) "violent" || includesKw (toLowerStr c) "robbery" ||
      includesKw (toLowerStr c) "burglary" || includesKw (toLowerStr c) "weapon" ||
      includesKw (toLowerStr c) "assault") <;>
    simp only [h1, if_true, if_false, Bool.false_eq_true, ite_false, ite_true]
  case true => decide
  cases h2 : (includesKw (toLowerStr c) "theft" || includesKw (toLowerStr c) "fraud" ||
      includesKw (toLowerStr c) "vehicle" || includesKw (toLowerStr c) "stolen" ||
      includesKw (toLowerStr c) "dui" || includesKw (toLowerStr c) "narcotic") <;>
    simp only [h2, if_true, if_false, Bool.false_eq_true, ite_false, ite_true]
  case true => decide
  cases hp : includesKw (toLowerStr c) "property" <;>
    cases hv : includesKw (toLowerStr c) "vandalism" <;>
    cases ht : includesKw (toLowerStr c) "traffic" <;>
    cases hd : includesKw (toLowerStr c) "disturbance" <;>
    cases htr : includesKw (toLowerStr c) "trespass" <;>
    cases hpo : includesKw (toLowerStr c) "public order" <;>
    cases h4 : (includesKw (toLowerStr c) "admin" || includesKw (toLowerStr c) "other" ||
      includesKw (toLowerStr c) "warrant" || includesKw (toLowerStr c) "arrest" ||
      includesKw (toLowerStr c) "lost" || includesKw (toLowerStr c) "found" ||
      includesKw (toLowerStr c) "suspicious" || includesKw (toLowerStr c) "info" ||
      includesKw (toLowerStr c) "misc" || includesKw (toLowerStr c) "welfare") <;>
    simp only [hp, hv, ht, hd, htr, hpo, h4, Bool.false_or, Bool.or_false, Bool.true_or,
      Bool.or_true, if_true, if_false, Bool.false_eq_true, ite_false, ite_true] <;>
    decide

/-- C5 counterexample: the claim asserts that "Lost Property" is
classified Informational/Other and sorts after "Traffic Violation"; in
the code the keyword `property` is matched by the Low tier (priority 3),
which is checked before the informational tier (priority 5), so the
label is classified Low, and within the shared Low tier the alphabetical
tie-break puts "Lost Property" before "Traffic Violation". -/
theorem lostProperty_counterexample :
    getCategorySeverityLevel "Lost Property" = "Low" ∧
    getCategorySeverityLevel "Lost Property" ≠ "Informational/Other" ∧
    uniqueCategories
      [mkIncident "" "Violent Crime" none none,
       mkIncident "" "Traffic Violation" none none,
       mkIncident "" "Lost Property" none none] =
      ["Violent Crime", "Lost Property", "Traffic Violation"] := by
  exact ⟨by decide, by decide, by decide⟩

/-- C5 amended: for the category set {"Violent Crime", "Traffic
Violation", "Lost Property"} the severity classifier assigns High, Low
and Low respectively ("Lost Property" matches the Low-tier keyword
`property` before the informational tier is reached), and the derived
category ordering places them as Violent Crime, then Lost Property, then
Traffic Violation (alphabetical within the shared Low tier). -/
theorem categoryScenario_amended :
    getCategorySeverityLevel "Violent Crime" = "High" ∧
    getCategorySeverityLevel "Traffic Violation" = "Low" ∧
    getCategorySeverityLevel "Lost Property" = "Low" ∧
    assignColorByCategory "Lost Property" = "#EAB308" ∧
    uniqueCategories
      [mkIncident "" "Violent Crime" none none,
       mkIncident "" "Traffic Violation" none none,
       mkIncident "" "Lost Property" none none] =
      ["Violent Crime", "Lost Property", "Traffic Violation"] := by
  exact ⟨by decide, by decide, by decide, by decide, by decide⟩

theorem passesCategory_empty (st : FilterState) (h : st.selectedCategories = [])
    (inc : Incident) : passesCategory st inc = true := by
  simp [passesCategory, h]

theorem passesCategory_mem {st : FilterState} {inc : Incident}
    (h : st.selectedCategories ≠ []) :
    (passesCategory st inc = true ↔ inc.offense_category ∈ st.selectedCategories) := by
  unfold passesCategory
  split_ifs with hc
  · constructor
    · intro hf; exact absurd hf (by simp)
    · intro hmem; exact absurd hmem hc.2
  · constructor
    · intro _
      rcases not_and_or.mp hc with h' | h'
      · exact absurd (List.length_pos.mpr h) h'
      · exact not_not.mp h'
    · intro _; rfl

/-- C2: filtering with an empty selected-category set yields the same
result as omitting the category predicate entirely (all categories
pass), while a non-empty selected-category set retains an incident only
if its category label is a member of that set. -/
theorem emptySelection_no_restriction :
    (∀ (pHuman : String → Option Int) (st : FilterState) (l : List Incident),
      st.selectedCategories = [] →
      filteredIncidents pHuman st l = filteredIncidentsNoCategory pHuman st l) ∧
    (∀ (st : FilterState) (inc : Incident), st.selectedCategories ≠ [] →
      (passesCategory st inc = true ↔ inc.offense_category ∈ st.selectedCategories)) := by
  constructor
  · intro pH st l h
    unfold filteredIncidents filteredIncidentsNoCategory
    apply List.filter_congr
    intro inc _
    unfold incidentPasses
    rw [passesCategory_empty st h inc, Bool.and_true]
  · intro st inc h
    exact passesCategory_mem h

theorem emptySelection_no_restriction_w :
    filteredIncidents pHnone ⟨"", "", "", "", []⟩
        [mkIncident "1/15/2025" "Theft" none none] =
      filteredIncidentsNoCategory pHnone ⟨"", "", "", "", []⟩
        [mkIncident "1/15/2025" "Theft" none none] :=
  emptySelection_no_restriction.1 pHnone ⟨"", "", "", "", []⟩ _ rfl

/-- C9: the filter engine is idempotent, and when no predicate group is
active (all four bound strings empty, no selected category) it is the
identity. -/
theorem filter_idempotent_identity :
    (∀ (pHuman : String → Option Int) (st : FilterState) (l : List Incident),
      filteredIncidents pHuman st (filteredIncidents pHuman st l) =
        filteredIncidents pHuman st l) ∧
    (∀ (pHuman : String → Option Int) (st : FilterState) (l : List Incident),
      st.incidentDateStart = "" → st.incidentDateEnd = "" →
      st.reportDateStart = "" → st.reportDateEnd = "" → st.selectedCategories = [] →
      filteredIncidents pHuman st l = l) := by
  constructor
  · intro pH st l
    unfold filteredIncidents
    exact List.filter_eq_self.mpr fun a ha => (List.mem_filter.mp ha).2
  · intro pH st l h1 h2 h3 h4 h5
    unfold filteredIncidents
    rw [List.filter_eq_self]
    intro inc _
    unfold incidentPasses passesIncidentDate passesReportDate
    rw [passesCategory_empty st h5 inc]
    simp [h1, h2, h3, h4]

theorem filter_idempotent_identity_w :
    filteredIncidents pHnone ⟨"", "", "", "", []⟩ [mkIncident "1/15/2025" "" none none] =
      [mkIncident "1/15/2025" "" none none] :=
  filter_idempotent_identity.2 pHnone ⟨"", "", "", "", []⟩ _ rfl rfl rfl rfl rfl

/-- C10: an incident with an empty (or missing) `offense_category`
passes the category predicate exactly when the selection is empty; under
any non-empty selection drawn from the derived category sequence (which
never contains the empty label) the filter excludes it. -/
theorem emptyCategory_excluded :
    ∀ (st : FilterState) (inc : Incident) (incs : List Incident),
      inc.offense_category = "" →
      (∀ c ∈ st.selectedCategories, c ∈ uniqueCategories incs) →
      ((passesCategory st inc = true ↔ st.selectedCategories = []) ∧
        (st.selectedCategories ≠ [] →
          ∀ pHuman : String → Option Int, incidentPasses pHuman st inc = false)) := by
  intro st inc incs hcat hsub
  have hnm : inc.offense_category ∉ st.selectedCategories := by
    intro hmem
    have hu := hsub _ hmem
    rw [hcat] at hu
    exact empty_not_mem_uniqueCategories hu
  constructor
  · constructor
    · intro hp
      by_contra hne
      rw [passesCategory_mem hne] at hp
      exact hnm hp
    · intro he
      exact passesCategory_empty st he inc
  · intro hne pH
    unfold incidentPasses
    have hf : passesCategory st inc = false := by
      cases hpc : passesCategory st inc
      · rfl
      · exact absurd ((passesCategory_mem hne).mp hpc) hnm
    rw [hf, Bool.and_false]

theorem emptyCategory_excluded_w :
    incidentPasses pHnone ⟨"", "", "", "", ["Violent Crime"]⟩
      (mkIncident "" "" none none) = false :=
  (emptyCategory_excluded ⟨"", "", "", "", ["Violent Crime"]⟩
      (mkIncident "" "" none none) [mkIncident "" "Violent Crime" none none] rfl
      (by intro c hc; rw [List.mem_singleton] at hc; subst hc; decide)).2
    (by decide) pHnone

theorem parseInputDateUTC_empty : parseInputDateUTC "" = none := rfl

theorem passesIncidentDate_none {st : FilterState} {inc : Incident}
    (hact : st.incidentDateStart ≠ "" ∨ st.incidentDateEnd ≠ "")
    (hn : parseMDYToUTCDate inc.date = none) : passesIncidentDate st inc = false := by
  unfold passesIncidentDate
  rw [if_pos hact, hn]

theorem passesIncidentDate_both {st : FilterState} {inc : Incident} {d sd ed : CivilDate}
    (hd : parseMDYToUTCDate inc.date = some d)
    (hsd : parseInputDateUTC st.incidentDateStart = some sd)
    (hed : parseInputDateUTC st.incidentDateEnd = some ed) :
    (passesIncidentDate st inc = true ↔
      sd.epochDays ≤ d.epochDays ∧ d.epochDays ≤ ed.epochDays) := by
  have hs : st.incidentDateStart ≠ "" := by
    intro he
    rw [he, parseInputDateUTC_empty] at hsd
    exact Option.noConfusion hsd
  have he : st.incidentDateEnd ≠ "" := by
    intro he
    rw [he, parseInputDateUTC_empty] at hed
    exact Option.noConfusion hed
  unfold passesIncidentDate
  rw [if_pos (Or.inl hs)]
  simp only [hd]
  rw [if_pos hs, if_pos he]
  simp only [hsd, hed, Bool.and_eq_true, Bool.not_eq_true', decide_eq_false_iff_not, not_lt]

theorem passesIncidentDate_start {st : FilterState} {inc : Incident} {d sd : CivilDate}
    (hd : parseMDYToUTCDate inc.date = some d)
    (hsd : parseInputDateUTC st.incidentDateStart = some sd)
    (hend : st.incidentDateEnd = "") :
    (passesIncidentDate st inc = true ↔ sd.epochDays ≤ d.epochDays) := by
  have hs : st.incidentDateStart ≠ "" := by
    intro he
    rw [he, parseInputDateUTC_empty] at hsd
    exact Option.noConfusion hsd
  unfold passesIncidentDate
  rw [if_pos (Or.inl hs)]
  simp only [hd]
  rw [if_pos hs, if_neg (show ¬ st.incidentDateEnd ≠ "" from fun h => h hend)]
  simp only [hsd, Bool.and_true, Bool.not_eq_true', decide_eq_false_iff_not, not_lt]

theorem passesIncidentDate_end {st : FilterState} {inc : Incident} {d ed : CivilDate}
    (hd : parseMDYToUTCDate inc.date = some d)
    (hstart : st.incidentDateStart = "")
    (hed : parseInputDateUTC st.incidentDateEnd = some ed) :
    (passesIncidentDate st inc = true ↔ d.epochDays ≤ ed.epochDays) := by
  have he : st.incidentDateEnd ≠ "" := by
    intro h
    rw [h, parseInputDateUTC_empty] at hed
    exact Option.noConfusion hed
  unfold passesIncidentDate
  rw [if_pos (Or.inr he)]
  simp only [hd]
  rw [if_neg (show ¬ st.incidentDateStart ≠ "" from fun h => h hstart), if_pos he]
  simp only [hed, Bool.true_and, Bool.not_eq_true', decide_eq_false_iff_not, not_lt]

/-- C1: the filter engine is a stable filter — its output is a sublist
of the input, so original relative order is preserved — retaining
exactly the incidents that satisfy the conjunction of the three
predicate groups; when an incident-date bound is set, an incident whose
date string fails to parse is excluded, and for parseable dates both
bounds are inclusive (with one or both bounds set, the incident passes
the group iff start ≤ date and/or date ≤ end on epoch days); for
incidents dated 1/15/2025 and 3/1/2025 and start bound 2025-02-01 with
no other predicate, only the 3/1/2025 incident is retained. -/
theorem filter_engine_spec :
    (∀ (pHuman : String → Option Int) (st : FilterState) (l : List Incident),
      List.Sublist (filteredIncidents pHuman st l) l) ∧
    (∀ (pHuman : String → Option Int) (st : FilterState) (l : List Incident)
        (inc : Incident),
      inc ∈ filteredIncidents pHuman st l ↔
        inc ∈ l ∧ passesIncidentDate st inc = true ∧
          passesReportDate pHuman st inc = true ∧ passesCategory st inc = true) ∧
    (∀ (st : FilterState) (inc : Incident),
      (st.incidentDateStart ≠ "" ∨ st.incidentDateEnd ≠ "") →
      parseMDYToUTCDate inc.date = none → passesIncidentDate st inc = false) ∧
    (∀ (st : FilterState) (inc : Incident) (d sd : CivilDate),
      parseMDYToUTCDate inc.date = some d →
      parseInputDateUTC st.incidentDateStart = some sd → st.incidentDateEnd = "" →
      (passesIncidentDate st inc = true ↔ sd.epochDays ≤ d.epochDays)) ∧
    (∀ (st : FilterState) (inc : Incident) (d ed : CivilDate),
      parseMDYToUTCDate inc.date = some d → st.incidentDateStart = "" →
      parseInputDateUTC st.incidentDateEnd = some ed →
      (passesIncidentDate st inc = true ↔ d.epochDays ≤ ed.epochDays)) ∧
    (∀ (st : FilterState) (inc : Incident) (d sd ed : CivilDate),
      parseMDYToUTCDate inc.date = some d →
      parseInputDateUTC st.incidentDateStart = some sd →
      parseInputDateUTC st.incidentDateEnd = some ed →
      (passesIncidentDate st inc = true ↔
        sd.epochDays ≤ d.epochDays ∧ d.epochDays ≤ ed.epochDays)) ∧
    filteredIncidents pHnone ⟨"2025-02-01", "", "", "", []⟩
      [mkIncident "1/15/2025" "" none none, mkIncident "3/1/2025" "" none none] =
      [mkIncident "3/1/2025" "" none none] := by
  refine ⟨fun pH st l => List.filter_sublist l, fun pH st l inc => ?_,
    fun st inc hact hn => passesIncidentDate_none hact hn,
    fun st inc d sd hd hsd hend => passesIncidentDate_start hd hsd hend,
    fun st inc d ed hd hstart hed => passesIncidentDate_end hd hstart hed,
    fun st inc d sd ed hd hsd hed => passesIncidentDate_both hd hsd hed, rfl⟩
  unfold filteredIncidents incidentPasses
  rw [List.mem_filter, Bool.and_eq_true, Bool.and_eq_true, and_assoc]

theorem filter_engine_spec_w :
    passesIncidentDate ⟨"2025-02-01", "", "", "", []⟩
      (mkIncident "not a date" "" none none) = false :=
  filter_engine_spec.2.2.1 ⟨"2025-02-01", "", "", "", []⟩
    (mkIncident "not a date" "" none none) (Or.inl (by decide)) (by decide)


theorem parseMDY_some_of (s : String) (p0 p1 p2 : List Char) (m d y : Int)
    (hsp : splitOnChar '/' s.data = [p0, p1, p2])
    (hm : jsParseInt p0 = some m) (hd : jsParseInt p1 = some d)
    (hy : jsParseInt p2 = some y)
    (h1 : 1 ≤ m) (h2 : m ≤ 12) (h3 : 1 ≤ d) (h4 : d ≤ 31)
    (h5 : 1900 ≤ y) (h6 : y ≤ 3000)
    (hrt : d.toNat ≤ daysInMonth y.toNat m.toNat) :
    parseMDYToUTCDate s = some ⟨y.toNat, m.toNat, d.toNat⟩ := by
  have hemp : s.data ≠ [] := by
    intro h
    rw [h] at hsp
    simp [splitOnChar] at hsp
  unfold parseMDYToUTCDate
  rw [if_neg hemp]
  simp only [hsp, hm, hd, hy]
  rw [if_neg (by omega), if_pos hrt]

theorem parseMDY_isSome_elim {s : String} (h : (parseMDYToUTCDate s).isSome = true) :
    ∃ (p0 p1 p2 : List Char) (m d y : Int), splitOnChar '/' s.data = [p0, p1, p2] ∧
      jsParseInt p0 = some m ∧ jsParseInt p1 = some d ∧ jsParseInt p2 = some y ∧
      1 ≤ m ∧ m ≤ 12 ∧ 1 ≤ d ∧ d ≤ 31 ∧ 1900 ≤ y ∧ y ≤ 3000 ∧
      d.toNat ≤ daysInMonth y.toNat m.toNat := by
  unfold parseMDYToUTCDate at h
  by_cases hemp : s.data = []
  · rw [if_pos hemp] at h
    simp at h
  · rw [if_neg hemp] at h
    split at h
    case _ p0 p1 p2 heq =>
      split at h
      case _ month day year hm hd hy =>
        split_ifs at h with hbad hrt
        · simp at h
        · push_neg at hbad
          exact ⟨p0, p1, p2, month, day, year, heq, hm, hd, hy, by omega, by omega,
            by omega, by omega, by omega, by omega, hrt⟩
        · simp at h
      case _ => simp at h
    case _ => simp at h

/-- C6: the primary date parser returns "no date" (it is a total
function, never a fault) exactly when the input does not split on `'/'`
into exactly three `parseInt`-numeric components, or a component is out
of range (month 1-12, day 1-31, year 1900-3000), or the
construct-and-read-back double check fails (the day overflows its
month); otherwise it returns the calendar date, anchored at UTC
midnight, whose components are the three parsed values. -/
theorem parseMDY_rejection_characterization : ∀ s : String,
    ((parseMDYToUTCDate s).isSome = true ↔
      ∃ (p0 p1 p2 : List Char) (m d y : Int), splitOnChar '/' s.data = [p0, p1, p2] ∧
        jsParseInt p0 = some m ∧ jsParseInt p1 = some d ∧ jsParseInt p2 = some y ∧
        1 ≤ m ∧ m ≤ 12 ∧ 1 ≤ d ∧ d ≤ 31 ∧ 1900 ≤ y ∧ y ≤ 3000 ∧
        d.toNat ≤ daysInMonth y.toNat m.toNat) ∧
    (∀ u : CivilDate, parseMDYToUTCDate s = some u →
      ∃ p0 p1 p2 : List Char, splitOnChar '/' s.data = [p0, p1, p2] ∧
        jsParseInt p0 = some (u.month : Int) ∧ jsParseInt p1 = some (u.day : Int) ∧
        jsParseInt p2 = some (u.year : Int)) := by
  intro s
  constructor
  · constructor
    · exact parseMDY_isSome_elim
    · rintro ⟨p0, p1, p2, m, d, y, hsp, hm, hd, hy, h1, h2, h3, h4, h5, h6, hrt⟩
      rw [parseMDY_some_of s p0 p1 p2 m d y hsp hm hd hy h1 h2 h3 h4 h5 h6 hrt]
      rfl
  · intro u hu
    have hsome : (parseMDYToUTCDate s).isSome = true := by rw [hu]; rfl
    obtain ⟨p0, p1, p2, m, d, y, hsp, hm, hd, hy, h1, h2, h3, h4, h5, h6, hrt⟩ :=
      parseMDY_isSome_elim hsome
    have heq := parseMDY_some_of s p0 p1 p2 m d y hsp hm hd hy h1 h2 h3 h4 h5 h6 hrt
    rw [hu] at heq
    injection heq with heq
    subst heq
    refine ⟨p0, p1, p2, hsp, ?_, ?_, ?_⟩
    · show jsParseInt p0 = some ((m.toNat : Int))
      rw [Int.toNat_of_nonneg (by omega)]
      exact hm
    · show jsParseInt p1 = some ((d.toNat : Int))
      rw [Int.toNat_of_nonneg (by omega)]
      exact hd
    · show jsParseInt p2 = some ((y.toNat : Int))
      rw [Int.toNat_of_nonneg (by omega)]
      exact hy

theorem parseMDY_rejection_characterization_w :
    parseMDYToUTCDate "1/15/2025" = some ⟨2025, 1, 15⟩ ∧
    (parseMDYToUTCDate "2/30/2024").isSome = false := by
  constructor
  · have h := (parseMDY_rejection_characterization "1/15/2025").2
    have hu : parseMDYToUTCDate "1/15/2025" = some ⟨2025, 1, 15⟩ := by decide
    obtain ⟨p0, p1, p2, hsp, hm, hd, hy⟩ := h ⟨2025, 1, 15⟩ hu
    exact hu
  · have h := (parseMDY_rejection_characterization "2/30/2024").1
    cases hs : (parseMDYToUTCDate "2/30/2024").isSome
    · rfl
    · obtain ⟨p0, p1, p2, m, d, y, hsp, hm, hd, hy, h1, h2, h3, h4, h5, h6, hrt⟩ := h.mp hs
      have hsp' : splitOnChar '/' "2/30/2024".data = [['2'], ['3', '0'], ['2', '0', '2', '4']] := by
        decide
      rw [hsp'] at hsp
      injection hsp with e0 hsp
      injection hsp with e1 hsp
      injection hsp with e2 hsp
      subst e0
      subst e1
      subst e2
      have hm' : m = 2 := by
        have : jsParseInt ['2'] = some 2 := by decide
        rw [this] at hm
        injection hm with hm
        omega
      have hd' : d = 30 := by
        have : jsParseInt ['3', '0'] = some 30 := by decide
        rw [this] at hd
        injection hd with hd
        omega
      have hy' : y = 2024 := by
        have : jsParseInt ['2', '0', '2', '4'] = some 2024 := by decide
        rw [this] at hy
        injection hy with hy
        omega
      subst hm'
      subst hd'
      subst hy'
      simp [daysInMonth, isLeapYear] at hrt

theorem digit_not_ws {c : Char} (h : isDigitChar c = true) : isJsWhitespace c = false := by
  have h48 : 48 ≤ c.toNat := by
    simp only [isDigitChar, Bool.and_eq_true, decide_eq_true_eq] at h
    exact h.1
  cases hw : isJsWhitespace c
  · rfl
  · exfalso
    simp only [isJsWhitespace, Bool.or_eq_true, decide_eq_true_eq] at hw
    rcases hw with ((((hc | hc) | hc) | hc) | hc) | hc
    · subst hc; exact absurd h48 (by decide)
    · subst hc; exact absurd h48 (by decide)
    · subst hc; exact absurd h48 (by decide)
    · subst hc; exact absurd h48 (by decide)
    · omega
    · omega

theorem digit_ne {c : Char} (h : isDigitChar c = true) :
    c ≠ '-' ∧ c ≠ '+' ∧ c ≠ '/' := by
  refine ⟨?_, ?_, ?_⟩ <;> intro he <;> rw [he] at h <;> exact absurd h (by decide)

theorem takeWhile_all {p : Char → Bool} :
    ∀ l : List Char, (∀ c ∈ l, p c = true) → l.takeWhile p = l := by
  intro l
  induction l with
  | nil => intro _; rfl
  | cons c cs ih =>
    intro h
    rw [List.takeWhile_cons, if_pos (h c (List.mem_cons_self c cs))]
    rw [ih fun x hx => h x (List.mem_cons_of_mem c hx)]

/-- Decimal digit characters of `n`, most significant first; the
spec-side formatter used to state the date-parsing round-trip. -/
def natToDecChars (n : Nat) : List Char :=
  if h : n < 10 then [Char.ofNat (48 + n)]
  else natToDecChars (n / 10) ++ [Char.ofNat (48 + n % 10)]
termination_by n
decreasing_by omega

theorem toNat_ofNat_digit : ∀ k : Nat, k < 10 → (Char.ofNat (48 + k)).toNat = 48 + k := by
  intro k hk
  interval_cases k <;> rfl

theorem isDigitChar_ofNat_digit : ∀ k : Nat, k < 10 →
    isDigitChar (Char.ofNat (48 + k)) = true := by
  intro k hk
  interval_cases k <;> decide

theorem natToDecChars_spec : ∀ n : Nat,
    natToDecChars n ≠ [] ∧ (∀ c ∈ natToDecChars n, isDigitChar c = true) ∧
    (∀ a : Nat, (natToDecChars n).foldl (fun a c => a * 10 + (c.toNat - 48)) a =
      a * 10 ^ (natToDecChars n).length + n) := by
  intro n
  induction n using Nat.strong_induction_on with
  | _ n ih =>
    by_cases h : n < 10
    · rw [natToDecChars, dif_pos h]
      refine ⟨by simp, ?_, ?_⟩
      · intro c hc
        rw [List.mem_singleton] at hc
        subst hc
        exact isDigitChar_ofNat_digit n h
      · intro a
        simp only [List.foldl_cons, List.foldl_nil, List.length_singleton, pow_one]
        rw [toNat_ofNat_digit n h]
        omega
    · rw [natToDecChars, dif_neg h]
      obtain ⟨hne, hdig, hfold⟩ := ih (n / 10) (by omega)
      have hm : n % 10 < 10 := by omega
      refine ⟨by simp, ?_, ?_⟩
      · intro c hc
        rcases List.mem_append.mp hc with hc | hc
        · exact hdig c hc
        · rw [List.mem_singleton] at hc
          subst hc
          exact isDigitChar_ofNat_digit _ hm
      · intro a
        rw [List.foldl_append, List.foldl_cons, List.foldl_nil, hfold a,
          toNat_ofNat_digit _ hm, List.length_append, List.length_singleton]
        have hstep : (a * 10 ^ (natToDecChars (n / 10)).length + n / 10) * 10 +
            (48 + n % 10 - 48) =
            a * (10 ^ (natToDecChars (n / 10)).length * 10) + (n / 10 * 10 + n % 10) := by
          ring_nf
          omega
        rw [hstep, pow_succ]
        have : n / 10 * 10 + n % 10 = n := by omega
        rw [this]

theorem digitsVal_natToDecChars (n : Nat) : digitsVal (natToDecChars n) = some n := by
  obtain ⟨hne, hdig, hfold⟩ := natToDecChars_spec n
  unfold digitsVal
  rw [takeWhile_all _ hdig, if_neg (by simpa [List.isEmpty_iff] using hne), hfold 0]
  simp

theorem jsParseInt_natToDecChars (n : Nat) :
    jsParseInt (natToDecChars n) = some (n : Int) := by
  obtain ⟨hne, hdig, -⟩ := natToDecChars_spec n
  obtain ⟨c, cs, hc⟩ := List.exists_cons_of_ne_nil hne
  have hcd : isDigitChar c = true := hdig c (hc ▸ List.mem_cons_self c cs)
  unfold jsParseInt
  rw [hc, List.dropWhile_cons]
  simp only [digit_not_ws hcd, Bool.false_eq_true, if_false,
    if_neg (digit_ne hcd).1, if_neg (digit_ne hcd).2.1]
  rw [← hc, digitsVal_natToDecChars]
  rfl

theorem splitOnChar_sepfree {sep : Char} :
    ∀ l : List Char, sep ∉ l → splitOnChar sep l = [l] := by
  intro l
  induction l with
  | nil => intro _; rfl
  | cons c cs ih =>
    intro h
    have hc : ¬ c = sep := fun he => h (he ▸ List.mem_cons_self c cs)
    have hcs : sep ∉ cs := fun hm => h (List.mem_cons_of_mem c hm)
    simp only [splitOnChar, if_neg hc, ih hcs]

theorem splitOnChar_append {sep : Char} :
    ∀ a l : List Char, sep ∉ a →
      splitOnChar sep (a ++ sep :: l) = a :: splitOnChar sep l := by
  intro a
  induction a with
  | nil => intro l _; simp [splitOnChar]
  | cons c cs ih =>
    intro l h
    have hc : ¬ c = sep := fun he => h (he ▸ List.mem_cons_self c cs)
    have hcs : sep ∉ cs := fun hm => h (List.mem_cons_of_mem c hm)
    simp only [List.cons_append, splitOnChar, if_neg hc, List.append_eq, ih l hcs]

/-- `m + "/" + d + "/" + y` in plain decimal; the canonical M/D/YYYY
rendering of a component triple. -/
def formatMDY (m d y : Nat) : String :=
  String.mk (natToDecChars m ++ '/' :: (natToDecChars d ++ '/' :: natToDecChars y))

theorem slash_not_mem_natToDecChars (k : Nat) : '/' ∉ natToDecChars k := by
  intro hmem
  have := (natToDecChars_spec k).2.1 _ hmem
  exact absurd this (by decide)

theorem daysInMonth_le_31 (y m : Nat) : daysInMonth y m ≤ 31 := by
  unfold daysInMonth
  split_ifs <;> omega

/-- C7: for any month/day/year triple that is valid per the parser's
documented contract (month 1-12, year 1900-3000, day at most the length
of the month), parsing the canonical M/D/YYYY rendering succeeds and
returns exactly that (Y, M, D) triple — the round-trip; and the invalid
string "2/30/2024" (Feb 30, 2024) parses to "no date". -/
theorem parseMDY_roundtrip :
    (∀ m d y : Nat, 1 ≤ m → m ≤ 12 → 1 ≤ d → d ≤ daysInMonth y m →
      1900 ≤ y → y ≤ 3000 →
      parseMDYToUTCDate (formatMDY m d y) = some ⟨y, m, d⟩) ∧
    parseMDYToUTCDate "2/30/2024" = none := by
  constructor
  · intro m d y h1 h2 h3 h4 h5 h6
    have hd31 : d ≤ 31 := le_trans h4 (daysInMonth_le_31 y m)
    have hsp : splitOnChar '/' (formatMDY m d y).data =
        [natToDecChars m, natToDecChars d, natToDecChars y] := by
      show splitOnChar '/'
          (natToDecChars m ++ '/' :: (natToDecChars d ++ '/' :: natToDecChars y)) = _
      rw [splitOnChar_append _ _ (slash_not_mem_natToDecChars m),
        splitOnChar_append _ _ (slash_not_mem_natToDecChars d),
        splitOnChar_sepfree _ (slash_not_mem_natToDecChars y)]
    have hres := parseMDY_some_of (formatMDY m d y) _ _ _ (m : Int) (d : Int) (y : Int)
      hsp (jsParseInt_natToDecChars m) (jsParseInt_natToDecChars d)
      (jsParseInt_natToDecChars y)
      (by exact_mod_cast h1) (by exact_mod_cast h2) (by exact_mod_cast h3)
      (by exact_mod_cast hd31) (by exact_mod_cast h5) (by exact_mod_cast h6)
      (by simpa using h4)
    simpa using hres
  · decide

theorem parseMDY_roundtrip_w :
    parseMDYToUTCDate (formatMDY 2 29 2024) = some ⟨2024, 2, 29⟩ :=
  parseMDY_roundtrip.1 2 29 2024 (by decide) (by decide) (by decide) (by decide)
    (by decide) (by decide)

/-- C8 counterexample: the slug parser does not apply the primary
parser's rejection discipline.  The slug "april-99-2025" has day 99 —
out of range and rolling over — yet the code resolves a report date
(`new Date(2025, 3, 99)` silently normalizes to July 8, 2025) instead of
"no report date", and with a report-date bound set the incident is
retained rather than excluded. -/
theorem slug_rollover_counterexample :
    resolveReportDate pHnone (mkIncident "" "" (some "april-99-2025") none) =
      some (some (daysFromCivil 2025 7 8)) ∧
    daysFromCivil 2025 4 99 = daysFromCivil 2025 7 8 ∧
    filteredIncidents pHnone ⟨"", "", "2025-01-01", "", []⟩
      [mkIncident "" "" (some "april-99-2025") none] =
      [mkIncident "" "" (some "april-99-2025") none] := by
  exact ⟨by decide, by decide, rfl⟩

/-- C8 amended: when a report-date bound is set, the report date is
resolved preferring the human-formatted `police_record_date` field and
falling back to the slug field; the secondary slug parser requires
exactly three `'-'`-separated parts with a recognized full month name
and `parseInt`-numeric day and year, but applies no range or rollover
rejection — any numeric day and year are accepted, with out-of-range
days silently normalized by rollover; if neither field parses, the
incident is excluded; for the slug "april-07-2025" with no
human-formatted field, the resolved report date is April 7, 2025. -/
theorem reportDate_resolution_amended :
    (∀ (pHuman : String → Option Int) (inc : Incident) (s : String) (t : Int),
      inc.police_record_date = some s → s ≠ "" → pHuman s = some t →
      resolveReportDate pHuman inc = some (some t)) ∧
    (∀ (pHuman : String → Option Int) (inc : Incident) (slug : String)
        (p0 p1 p2 : List Char) (day year : Int),
      humanResolve pHuman inc = none →
      inc.police_record_date_str = some slug → slug ≠ "" →
      splitOnChar '-' slug.data = [p0, p1, p2] →
      jsIndexOf monthNames (toLowerStr (String.mk p0)) > -1 →
      jsParseInt p1 = some day → jsParseInt p2 = some year →
      resolveReportDate pHuman inc =
        some (jsNewDateYMD year (jsIndexOf monthNames (toLowerStr (String.mk p0))).toNat
          day)) ∧
    (∀ (pHuman : String → Option Int) (st : FilterState) (inc : Incident),
      (st.reportDateStart ≠ "" ∨ st.reportDateEnd ≠ "") →
      resolveReportDate pHuman inc = none →
      passesReportDate pHuman st inc = false) ∧
    resolveReportDate pHnone (mkIncident "" "" (some "april-07-2025") none) =
      some (some (daysFromCivil 2025 4 7)) := by
  refine ⟨?_, ?_, ?_, by decide⟩
  · intro pH inc s t hrec hsne hp
    have hh : humanResolve pH inc = some t := by
      unfold humanResolve
      simp only [hrec]
      rw [if_neg hsne, hp]
    unfold resolveReportDate
    simp only [hh]
  · intro pH inc slug p0 p1 p2 day year hh hslug hsne hsplit hgt hday hyear
    unfold resolveReportDate
    simp only [hh, hslug]
    rw [if_neg hsne]
    simp only [hsplit]
    rw [if_pos hgt]
    simp only [hday, hyear]
  · intro pH st inc hact hres
    unfold passesReportDate
    rw [if_pos hact, hres]

theorem reportDate_resolution_amended_w :
    passesReportDate pHnone ⟨"", "", "2025-01-01", "", []⟩
      (mkIncident "" "" none none) = false :=
  reportDate_resolution_amended.2.2.1 pHnone ⟨"", "", "2025-01-01", "", []⟩
    (mkIncident "" "" none none) (Or.inl (by decide)) (by decide)
